import Mathlib

/-!
Verification of the client-side offline receipt queue, the receipt-creation
form flow, and the live-dashboard activity list of the ETR repository.

The embedding below follows the JavaScript sources:

* `static/js/offline.js` — `OfflineManager`: loading/saving the pending
  receipt queue from `localStorage` under the key `'pendingReceipts'`,
  draining it on reconnect (`syncPendingReceipts`), appending to it
  (`storeReceiptOffline`), and the online/offline event handlers.
* `static/js/create_receipt.js` — `validateForm` and `generateReceipt`:
  row validation, building the `receiptData` payload, and the
  success/error/catch branches around the `fetch` call.
* the dashboard file — `LiveDashboard.addLiveActivity`: the bounded live
  activity list.

JavaScript object references are modelled by values: distinct objects are
distinct values.  `JSON.parse` always allocates fresh objects, and every
enqueued payload is a freshly built object literal, so a realizable queue
never contains the same reference twice; theorems about the drain loop take
the corresponding `Nodup` hypothesis.
-/

namespace ETR

/-! ## JSON values and the platform serializer

`localStorage` stores strings; `offline.js` serializes the queue with
`JSON.stringify` and reads it back with `JSON.parse`.  We model JSON values
as a mutual inductive family and implement both directions character by
character.  `JSON.stringify` emits no insignificant whitespace, so the
parser is modelled on the whitespace-free fragment; `none` results model a
thrown `SyntaxError`. -/

mutual
/-- A JSON value.  `num` carries the numeric literal exactly as it appears
in the serialized text (a JavaScript number always serializes to a valid
JSON numeral, recorded by `validNum` below). -/
inductive Json : Type where
  | null : Json
  | bool (b : Bool) : Json
  | num (tok : String) : Json
  | str (s : String) : Json
  | arr (elems : JsonList) : Json
  | obj (fields : JsonFields) : Json

/-- The elements of a JSON array, in order. -/
inductive JsonList : Type where
  | nil : JsonList
  | cons (hd : Json) (tl : JsonList) : JsonList

/-- The fields of a JSON object, in insertion order. -/
inductive JsonFields : Type where
  | fnil : JsonFields
  | fcons (key : String) (val : Json) (tl : JsonFields) : JsonFields
end

/-- The lowercase hexadecimal digit for `n < 16`, as used by the `\u00XX`
escapes `JSON.stringify` emits for control characters. -/
def hexDigit (n : Nat) : Char :=
  if n < 10 then Char.ofNat (48 + n) else Char.ofNat (87 + n)

/-- JSON string escaping of one character, following `JSON.stringify`:
quote and backslash are backslash-escaped, the named control escapes are
used where they exist, other control characters become `\u00XX`, and
everything else passes through. -/
def escapeChar (c : Char) : List Char :=
  if c = '"' then ['\\', '"']
  else if c = '\\' then ['\\', '\\']
  else if c = '\n' then ['\\', 'n']
  else if c = '\r' then ['\\', 'r']
  else if c = '\t' then ['\\', 't']
  else if c.toNat = 8 then ['\\', 'b']
  else if c.toNat = 12 then ['\\', 'f']
  else if c.toNat < 32 then
    ['\\', 'u', '0', '0', hexDigit (c.toNat / 16), hexDigit (c.toNat % 16)]
  else [c]

/-- JSON string escaping of a character sequence. -/
def escapeString : List Char → List Char
  | [] => []
  | c :: cs => escapeChar c ++ escapeString cs

mutual
/-- Serialization of a JSON value: character for character what
`JSON.stringify` prints. -/
def jsonChars : Json → List Char
  | .null => "null".data
  | .bool true => "true".data
  | .bool false => "false".data
  | .num tok => tok.data
  | .str s => '"' :: escapeString s.data ++ ['"']
  | .arr .nil => ['[', ']']
  | .arr (.cons h t) => '[' :: jsonChars h ++ listChars t ++ [']']
  | .obj .fnil => ['\x7b', '\x7d']
  | .obj (.fcons k v t) =>
      '\x7b' :: ('"' :: escapeString k.data ++ ['"']) ++
        ':' :: jsonChars v ++ fieldsChars t ++ ['\x7d']

/-- Serialization of the second and later array elements, each preceded by
a comma. -/
def listChars : JsonList → List Char
  | .nil => []
  | .cons h t => ',' :: jsonChars h ++ listChars t

/-- Serialization of the second and later object fields, each preceded by
a comma. -/
def fieldsChars : JsonFields → List Char
  | .fnil => []
  | .fcons k v t =>
      ',' :: ('"' :: escapeString k.data ++ ['"']) ++
        ':' :: jsonChars v ++ fieldsChars t
end

/-- `JSON.stringify` as a function to strings. -/
def Json.stringify (v : Json) : String :=
  String.mk (jsonChars v)

/-- Characters that may occur inside a JSON numeric literal; the parser
takes the maximal run of these when it sees a digit or a minus sign. -/
def numAlpha (c : Char) : Bool :=
  c.isDigit || c = '.' || c = '-' || c = '+' || c = 'e' || c = 'E'

/-- Strips one or more leading decimal digits; `none` if there are none. -/
def stripDigits1 : List Char → Option (List Char)
  | c :: t => if c.isDigit then some (t.dropWhile Char.isDigit) else none
  | [] => none

/-- The JSON numeric-literal grammar (RFC 8259): optional minus, integer
part without leading zeros, optional fraction, optional exponent. -/
def validNum (cs : List Char) : Bool :=
  let body := match cs with | '-' :: t => t | _ => cs
  let afterInt : Option (List Char) :=
    match body with
    | '0' :: t => some t
    | c :: t => if c.isDigit then some (t.dropWhile Char.isDigit) else none
    | [] => none
  match afterInt with
  | none => false
  | some r1 =>
    let afterFrac : Option (List Char) :=
      match r1 with
      | '.' :: u => stripDigits1 u
      | _ => some r1
    match afterFrac with
    | none => false
    | some r2 =>
      match r2 with
      | [] => true
      | c :: u =>
        if c = 'e' ∨ c = 'E' then
          let u1 := match u with | '+' :: w => w | '-' :: w => w | _ => u
          match stripDigits1 u1 with
          | some [] => true
          | _ => false
        else false

/-- Whether a character sequence starts the way a JSON numeral must: with a
digit or a minus sign (this is also the lookahead on which `JSON.parse`
commits to reading a number). -/
def numStart : List Char → Bool
  | c :: _ => c.isDigit || c = '-'
  | [] => false

/-- The numeric value of a hexadecimal digit character; `none` otherwise. -/
def hexVal (c : Char) : Option Nat :=
  if '0' ≤ c ∧ c ≤ '9' then some (c.toNat - 48)
  else if 'a' ≤ c ∧ c ≤ 'f' then some (c.toNat - 87)
  else if 'A' ≤ c ∧ c ≤ 'F' then some (c.toNat - 55)
  else none

/-- Parses the body of a JSON string literal after the opening quote, up to
and including the closing quote, unescaping as `JSON.parse` does; raw
control characters and malformed escapes are rejected.  Returns the decoded
characters and the remaining input. -/
def parseStringBody : List Char → Option (List Char × List Char)
  | [] => none
  | c :: rest =>
    if c = '"' then some ([], rest)
    else if c = '\\' then
      match rest with
      | [] => none
      | e :: rest2 =>
        if e = '"' ∨ e = '\\' ∨ e = '/' then
          (fun p => (e :: p.1, p.2)) <$> parseStringBody rest2
        else if e = 'n' then (fun p => ('\n' :: p.1, p.2)) <$> parseStringBody rest2
        else if e = 'r' then (fun p => ('\r' :: p.1, p.2)) <$> parseStringBody rest2
        else if e = 't' then (fun p => ('\t' :: p.1, p.2)) <$> parseStringBody rest2
        else if e = 'b' then
          (fun p => (Char.ofNat 8 :: p.1, p.2)) <$> parseStringBody rest2
        else if e = 'f' then
          (fun p => (Char.ofNat 12 :: p.1, p.2)) <$> parseStringBody rest2
        else if e = 'u' then
          match rest2 with
          | h1 :: h2 :: h3 :: h4 :: rest3 =>
            match hexVal h1, hexVal h2, hexVal h3, hexVal h4 with
            | some a, some b, some c2, some d =>
              (fun p => (Char.ofNat (((a * 16 + b) * 16 + c2) * 16 + d) :: p.1, p.2)) <$>
                parseStringBody rest3
            | _, _, _, _ => none
          | _ => none
        else none
    else if c.toNat < 32 then none
    else (fun p => (c :: p.1, p.2)) <$> parseStringBody rest

mutual
/-- The platform JSON parser (`JSON.parse`) on the whitespace-free fragment,
with explicit fuel; `none` models a thrown `SyntaxError`.  The empty-array
case is recognized by attempting an element first, which fails exactly when
the next character is the closing bracket, so this accepts the same texts
with the same results as a one-character lookahead. -/
def parseVal : Nat → List Char → Option (Json × List Char)
  | 0, _ => none
  | _ + 1, [] => none
  | fuel + 1, c :: rest =>
    if c = 'n' then
      if rest.take 3 = ['u', 'l', 'l'] then some (.null, rest.drop 3) else none
    else if c = 't' then
      if rest.take 3 = ['r', 'u', 'e'] then some (.bool true, rest.drop 3) else none
    else if c = 'f' then
      if rest.take 4 = ['a', 'l', 's', 'e'] then some (.bool false, rest.drop 4) else none
    else if c = '"' then
      (fun p => (Json.str (String.mk p.1), p.2)) <$> parseStringBody rest
    else if c = '[' then
      match parseVal fuel rest with
      | some (v, r2) =>
        (match parseListTail fuel r2 with
         | some (l, r3) => some (.arr (.cons v l), r3)
         | none => none)
      | none =>
        match rest with
        | ']' :: r2 => some (.arr .nil, r2)
        | _ => none
    else if c = '\x7b' then
      match rest with
      | '\x7d' :: r2 => some (.obj .fnil, r2)
      | '"' :: r2 =>
        match parseStringBody r2 with
        | none => none
        | some (k, r3) =>
          match r3 with
          | ':' :: r4 =>
            match parseVal fuel r4 with
            | none => none
            | some (v, r5) =>
              match parseFieldsTail fuel r5 with
              | none => none
              | some (fs, r6) => some (.obj (.fcons (String.mk k) v fs), r6)
          | _ => none
      | _ => none
    else if c.isDigit || c = '-' then
      let tok := (c :: rest).takeWhile numAlpha
      if validNum tok then some (.num (String.mk tok), (c :: rest).dropWhile numAlpha)
      else none
    else none

/-- Parses array elements after the first: a comma-separated tail closed by
a bracket. -/
def parseListTail : Nat → List Char → Option (JsonList × List Char)
  | 0, _ => none
  | _ + 1, [] => none
  | fuel + 1, c :: rest =>
    if c = ']' then some (.nil, rest)
    else if c = ',' then
      match parseVal fuel rest with
      | none => none
      | some (v, r2) =>
        match parseListTail fuel r2 with
        | none => none
        | some (l, r3) => some (.cons v l, r3)
    else none

/-- Parses object fields after the first: a comma-separated tail closed by
a brace. -/
def parseFieldsTail : Nat → List Char → Option (JsonFields × List Char)
  | 0, _ => none
  | _ + 1, [] => none
  | fuel + 1, c :: rest =>
    if c = '\x7d' then some (.fnil, rest)
    else if c = ',' then
      match rest with
      | '"' :: r2 =>
        match parseStringBody r2 with
        | none => none
        | some (k, r3) =>
          match r3 with
          | ':' :: r4 =>
            match parseVal fuel r4 with
            | none => none
            | some (v, r5) =>
              match parseFieldsTail fuel r5 with
              | none => none
              | some (fs, r6) => some (.fcons (String.mk k) v fs, r6)
          | _ => none
      | _ => none
    else none
end

/-- `JSON.parse` on a complete JSON text; `none` models a thrown
`SyntaxError`. -/
def Json.parse (s : String) : Option Json :=
  match parseVal (s.data.length + 1) s.data with
  | some (v, []) => some v
  | _ => none

mutual
/-- Serializable well-formedness: every numeric literal embedded in the
value satisfies the JSON numeral grammar, with two evident consequences —
its characters lie in the numeral alphabet and it starts with a digit or a
minus sign — recorded alongside for direct use.  Everything `JSON.stringify`
prints from a JavaScript value satisfies this. -/
def jsonWF : Json → Bool
  | .num tok =>
      validNum tok.data && tok.data.all numAlpha && numStart tok.data
  | .arr l => jsonListWF l
  | .obj fs => jsonFieldsWF fs
  | _ => true

/-- `jsonWF` on every array element. -/
def jsonListWF : JsonList → Bool
  | .nil => true
  | .cons h t => jsonWF h && jsonListWF t

/-- `jsonWF` on every field value. -/
def jsonFieldsWF : JsonFields → Bool
  | .fnil => true
  | .fcons _ v t => jsonWF v && jsonFieldsWF t
end

/-- `this.pendingReceipts = JSON.parse(localStorage.getItem('pendingReceipts') || '[]')`:
the queue-load step of the `OfflineManager` constructor.  `none` for
`stored` models an absent key (`getItem` returns `null`); the empty string
is also falsy in JavaScript, so both fall back to `'[]'`.  A `none` result
models the `JSON.parse` call throwing, which fails the constructor. -/
def loadPendingReceipts (stored : Option String) : Option Json :=
  let raw := match stored with
    | none => "[]"
    | some s => if s = "" then "[]" else s
  Json.parse raw

/-- `localStorage.setItem('pendingReceipts', JSON.stringify(queue))`: the
string written to storage when the queue is persisted. -/
def savePendingReceipts (q : JsonList) : String :=
  Json.stringify (.arr q)

/-! ## Round trip of the serializer through the parser -/

/-- Number-boundary safety: the remaining input does not begin with a
numeral character, so the parser's maximal munch for a number stops exactly
at the token boundary.  In serialized JSON a numeral is always followed by
a comma, a closing bracket, a closing brace, or the end of the text. -/
def headSafe : List Char → Bool
  | [] => true
  | c :: _ => !numAlpha c

/-! ## The `OfflineManager` state, drain loop, enqueue and event handlers

Receipts are an arbitrary type `α` with decidable equality standing for
object identity: the drain loop compares entries only with `!==` and never
inspects payloads.  `storedQueue` is the queue encoded in the
`localStorage` slot `'pendingReceipts'`, viewed through the JSON
serialization (lossless by `parse_stringify`). -/

/-- The `OfflineManager` state: `isOnline` mirrors `this.isOnline`,
`pendingReceipts` the in-memory array `this.pendingReceipts`,
`storedQueue` the persisted queue, `offlineClass` the `offline` CSS class
on `document.body`, and `notifications` counts the banners appended by
`showOfflineNotification`. -/
structure OfflineState (α : Type) where
  isOnline : Bool
  pendingReceipts : List α
  storedQueue : List α
  offlineClass : Bool
  notifications : Nat

/-- One iteration of the `for (const receipt of this.pendingReceipts)` loop
of `syncPendingReceipts`, for the entry `r` whose submission attempt had
outcome `ok` (`response.ok`; a network error caught by the `try` block and
a non-ok response both count as `false`): on success the entry is removed
by `this.pendingReceipts = this.pendingReceipts.filter(r => r !== receipt)`
and the updated queue is persisted at once with `localStorage.setItem`; on
failure nothing changes. -/
def syncStep {α : Type} [DecidableEq α] (ok : Bool) (r : α) (s : OfflineState α) :
    OfflineState α :=
  if ok then
    let q := s.pendingReceipts.filter (fun x => decide (x ≠ r))
    { s with pendingReceipts := q, storedQueue := q }
  else s

/-- The drain loop over the snapshot of the queue taken when the `for…of`
iterator was created (reassigning `this.pendingReceipts` inside the loop
body does not change what is iterated).  `outcomes i` is the result of the
submission attempt for the `i`-th snapshot entry. -/
def syncRun {α : Type} [DecidableEq α] (outcomes : Nat → Bool) :
    Nat → List α → OfflineState α → OfflineState α
  | _, [], s => s
  | i, r :: rest, s => syncRun outcomes (i + 1) rest (syncStep (outcomes i) r s)

/-- `OfflineManager.syncPendingReceipts`: one drain pass, attempting every
entry of the snapshot of the in-memory queue in order. -/
def syncPendingReceipts {α : Type} [DecidableEq α] (outcomes : Nat → Bool)
    (s : OfflineState α) : OfflineState α :=
  syncRun outcomes 0 s.pendingReceipts s

/-- `OfflineManager.storeReceiptOffline`: pushes the receipt onto the
in-memory queue, persists the queue, and shows the offline notification
unconditionally. -/
def storeReceiptOffline {α : Type} (r : α) (s : OfflineState α) : OfflineState α :=
  { s with
    pendingReceipts := s.pendingReceipts ++ [r]
    storedQueue := s.pendingReceipts ++ [r]
    notifications := s.notifications + 1 }

/-- `OfflineManager.handleOnline`, with the drain invocations it performs
recorded alongside, each as the snapshot of entries that drain pass
attempts: the handler sets the online flag, calls `syncPendingReceipts()`
exactly once, and removes the `offline` class. -/
def handleOnline {α : Type} [DecidableEq α] (outcomes : Nat → Bool)
    (s : OfflineState α) : OfflineState α × List (List α) :=
  let s1 := { s with isOnline := true }
  let s2 := syncPendingReceipts outcomes s1
  ({ s2 with offlineClass := false }, [s1.pendingReceipts])

/-- `OfflineManager.handleOffline`: clears the online flag, adds the
`offline` class, and shows the offline notification. -/
def handleOffline {α : Type} (s : OfflineState α) : OfflineState α :=
  { s with isOnline := false, offlineClass := true,
           notifications := s.notifications + 1 }

/-- Browser connectivity events delivered to the listeners registered in
`init()`. -/
inductive ConnectivityEvent where
  | online
  | offline

/-- Dispatch of one connectivity event: the new state together with the
drain invocations the handler performed. -/
def dispatchEvent {α : Type} [DecidableEq α] (outcomes : Nat → Bool)
    (e : ConnectivityEvent) (s : OfflineState α) : OfflineState α × List (List α) :=
  match e with
  | .online => handleOnline outcomes s
  | .offline => (handleOffline s, [])

/-- The entries whose submission attempts failed, in their original
relative order, when the `i`-th snapshot entry has outcome `outcomes i`:
the specification's description of the post-drain queue. -/
def failedOnly {α : Type} (outcomes : Nat → Bool) : Nat → List α → List α
  | _, [] => []
  | i, r :: rest =>
    if outcomes i then failedOnly outcomes (i + 1) rest
    else r :: failedOnly outcomes (i + 1) rest

/-- Whether some successful attempt among the remaining snapshot entries
(numbered from `i`) removes the value `x`. -/
def hitBy {α : Type} [DecidableEq α] (outcomes : Nat → Bool) :
    Nat → List α → α → Bool
  | _, [], _ => false
  | i, r :: rest, x =>
    (outcomes i && decide (x = r)) || hitBy outcomes (i + 1) rest x

/-! ## The receipt-creation form flow (`create_receipt.js`) -/

/-- The numeric value of a digit sequence, most significant digit first. -/
def digitsNat (ds : List Char) : Nat :=
  ds.foldl (fun a c => a * 10 + (c.toNat - 48)) 0

/-- The digit sequence's value as a rational. -/
def digitsVal (ds : List Char) : ℚ :=
  ((digitsNat ds : Nat) : ℚ)

/-- A model of JavaScript's `parseFloat` on the strings a number input's
`value` property can hold: leading whitespace is skipped, then the longest
prefix of the form `[+-]? digits [. digits]? | [+-]? . digits`, with an
optional exponent, is read; `none` models `NaN`.  Finite decimal numerals
are represented exactly as rationals; a number input's `value` is either
empty or a finite decimal numeral, so non-finite values do not arise. -/
def parseFloatQ (s : String) : Option ℚ :=
  let cs := s.data.dropWhile Char.isWhitespace
  let scs : ℚ × List Char :=
    match cs with
    | '-' :: t => (-1, t)
    | '+' :: t => (1, t)
    | _ => (1, cs)
  let intd := scs.2.takeWhile Char.isDigit
  let cs2 := scs.2.dropWhile Char.isDigit
  let fcs : List Char × List Char :=
    match cs2 with
    | '.' :: t => (t.takeWhile Char.isDigit, t.dropWhile Char.isDigit)
    | _ => ([], cs2)
  if intd = [] ∧ fcs.1 = [] then none
  else
    let mant : ℚ := digitsVal intd + digitsVal fcs.1 / ((10 : ℚ) ^ fcs.1.length)
    let e : ℤ :=
      match fcs.2 with
      | c :: t =>
        if c = 'e' ∨ c = 'E' then
          let est : ℤ × List Char :=
            match t with
            | '-' :: u => (-1, u)
            | '+' :: u => (1, u)
            | _ => (1, t)
          let ed := est.2.takeWhile Char.isDigit
          if ed = [] then 0 else est.1 * (digitsNat ed : ℤ)
        else 0
      | [] => 0
    some (scs.1 * mant * (10 : ℚ) ^ e)

/-- One item row of the create-receipt form: the raw string `value`s of its
three inputs. -/
structure FormItemRow where
  itemName : String
  itemQuantity : String
  itemPrice : String
deriving DecidableEq

/-- A validated line item as pushed by `validateForm`: the trimmed name and
the `parseFloat`ed quantity and price. -/
structure ValidatedItem where
  name : String
  quantity : ℚ
  price : ℚ
deriving DecidableEq

/-- The form state read by `generateReceipt`: the customer fields and the
item rows. -/
structure FormState where
  customerName : String
  customerPIN : String
  paymentMethod : String
  rows : List FormItemRow
deriving DecidableEq

/-- `validateForm` of `create_receipt.js`, its `forEach` written as a fold:
a row is invalid when its trimmed name is empty, its quantity does not
parse or is ≤ 0, or its price does not parse or is < 0; an invalid row
clears `valid`, a valid row pushes its item.  Setting the border color of
invalid inputs is styling, not form state. -/
def validateForm (rows : List FormItemRow) : Bool × List ValidatedItem :=
  rows.foldl
    (fun acc row =>
      let name := row.itemName.trim
      match parseFloatQ row.itemQuantity, parseFloatQ row.itemPrice with
      | some q, some p =>
        if name = "" ∨ q ≤ 0 ∨ p < 0 then (false, acc.2)
        else (acc.1, acc.2 ++ [⟨name, q, p⟩])
      | _, _ => (false, acc.2))
    (true, [])

/-- Per-row validation: `some` with the pushed item exactly when the row
passes `validateForm`'s row condition. -/
def rowCheck (row : FormItemRow) : Option ValidatedItem :=
  let name := row.itemName.trim
  match parseFloatQ row.itemQuantity, parseFloatQ row.itemPrice with
  | some q, some p =>
    if name = "" ∨ q ≤ 0 ∨ p < 0 then none else some ⟨name, q, p⟩
  | _, _ => none

/-- The `receiptData` object literal built by `generateReceipt`. -/
structure ReceiptPayload where
  customer_name : String
  customer_pin : String
  payment_method : String
  items : List ValidatedItem
deriving DecidableEq

/-- The `fetch('/create-receipt')` round trip as `generateReceipt` observes
it: `reject` models a thrown network error (the `catch` path), and
`response ok err` a completed request whose parsed JSON body has `success`
equal to `ok`. -/
inductive FetchResult where
  | reject (message : String)
  | response (success : Bool) (error : String)
deriving DecidableEq

/-- Everything one `generateReceipt` call did: whether the request was
sent, with which payload, which payloads were handed to
`storeReceiptOffline` (none, in this code), whether an alert was shown,
whether the receipt modal was shown, and the form state afterwards. -/
structure GenOutcome where
  requestSent : Bool
  payload : Option ReceiptPayload
  enqueued : List ReceiptPayload
  alerted : Bool
  shownReceipt : Bool
  formAfter : FormState
deriving DecidableEq

/-- `generateReceipt` of `create_receipt.js`: the gate
`!validation.valid || validation.items.length === 0` alerts and returns;
otherwise `receiptData` is built (`customerName.value || 'Walk-in
Customer'` — the empty string is falsy — PIN and payment method verbatim,
items from the validation) and submitted.  A success response shows the
receipt, a failure response alerts, and the `catch` branch for a rejected
request only alerts — it never calls `offlineManager.storeReceiptOffline`,
so `enqueued` is empty in every branch.  No branch writes to any form
field (the `finally` block only resets the button), so `formAfter` is the
input form. -/
def generateReceipt (form : FormState) (net : FetchResult) : GenOutcome :=
  let v := validateForm form.rows
  if ¬ v.1 ∨ v.2.length = 0 then
    { requestSent := false, payload := none, enqueued := [], alerted := true,
      shownReceipt := false, formAfter := form }
  else
    let receiptData : ReceiptPayload :=
      { customer_name :=
          if form.customerName = "" then "Walk-in Customer" else form.customerName
        customer_pin := form.customerPIN
        payment_method := form.paymentMethod
        items := v.2 }
    match net with
    | .reject _ =>
      { requestSent := true, payload := some receiptData, enqueued := [],
        alerted := true, shownReceipt := false, formAfter := form }
    | .response ok _ =>
      if ok then
        { requestSent := true, payload := some receiptData, enqueued := [],
          alerted := false, shownReceipt := true, formAfter := form }
      else
        { requestSent := true, payload := some receiptData, enqueued := [],
          alerted := true, shownReceipt := false, formAfter := form }

/-! ## The live dashboard activity list -/

/-- `LiveDashboard.addLiveActivity`: inserts the new activity item before
the container's first child and, when the child count then exceeds 10,
removes the container's last child. -/
def addLiveActivity {α : Type} (item : α) (container : List α) : List α :=
  let c := item :: container
  if c.length > 10 then c.dropLast else c

/-- The row condition in the specification's vocabulary: non-empty trimmed
name, parsed quantity strictly positive, parsed price non-negative. -/
def specRowOk (row : FormItemRow) : Prop :=
  row.itemName.trim ≠ "" ∧
  (∃ q, parseFloatQ row.itemQuantity = some q ∧ 0 < q) ∧
  (∃ p, parseFloatQ row.itemPrice = some p ∧ 0 ≤ p)

/-- A concrete one-receipt queue, shaped like an enqueued `receiptData`
payload, used to exercise the storage round trip. -/
def sampleQueue : JsonList :=
  .cons (.obj (.fcons "customer_name" (.str "Walk-in Customer")
    (.fcons "customer_pin" (.str "")
    (.fcons "payment_method" (.str "Cash")
    (.fcons "items" (.arr (.cons (.obj (.fcons "name" (.str "Apple juice 1\"")
      (.fcons "quantity" (.num "2") (.fcons "price" (.num "10.5") .fnil)))) .nil))
    .fnil))))) .nil

/-! ## Theorems: serializer round trip, drain loop, and form validation -/

theorem hexVal_hexDigit : ∀ n < 16, hexVal (hexDigit n) = some n := by decide

theorem numStart_ne (c : Char) (h : (c.isDigit || c = '-') = true) :
    ∀ d ∈ (['n', 't', 'f', '"', '[', ']', ',', '\x7b', '\x7d'] : List Char), c ≠ d := by
  intro d hd he
  subst he
  fin_cases hd <;> revert h <;> decide

theorem parseStringBody_escape (cs : List Char) : ∀ rest : List Char,
    parseStringBody (escapeString cs ++ '"' :: rest) = some (cs, rest) := by
  induction cs with
  | nil =>
    intro rest
    rw [show escapeString [] ++ '"' :: rest = '"' :: rest from rfl,
      parseStringBody.eq_def]
    simp
  | cons c cs ih =>
    intro rest
    show parseStringBody ((escapeChar c ++ escapeString cs) ++ '"' :: rest) = _
    rw [List.append_assoc]
    unfold escapeChar
    split_ifs with h1 h2 h3 h4 h5 h6 h7 h8
    · subst h1; rw [parseStringBody.eq_def]; simp [ih]
    · subst h2; rw [parseStringBody.eq_def]; simp [ih]
    · subst h3; rw [parseStringBody.eq_def]; simp [ih]
    · subst h4; rw [parseStringBody.eq_def]; simp [ih]
    · subst h5; rw [parseStringBody.eq_def]; simp [ih]
    · have hc : c = Char.ofNat 8 := by rw [← Char.ofNat_toNat c, h6]
      rw [parseStringBody.eq_def]; simp [ih, hc]
    · have hc : c = Char.ofNat 12 := by rw [← Char.ofNat_toNat c, h7]
      rw [parseStringBody.eq_def]; simp [ih, hc]
    · have hdiv : c.toNat / 16 < 16 := by omega
      have hmod : c.toNat % 16 < 16 := Nat.mod_lt _ (by omega)
      have h0 : hexVal '0' = some 0 := rfl
      rw [parseStringBody.eq_def]
      simp [h0, hexVal_hexDigit _ hdiv, hexVal_hexDigit _ hmod, ih]
      have h16 : c.toNat / 16 * 16 + c.toNat % 16 = c.toNat := by omega
      rw [h16, Char.ofNat_toNat]
    · rw [parseStringBody.eq_def]
      simp [h1, h2, h8, ih]

theorem takeWhile_numAlpha_append (tok : List Char) : ∀ rest : List Char,
    tok.all numAlpha = true → headSafe rest = true →
    (tok ++ rest).takeWhile numAlpha = tok ∧
      (tok ++ rest).dropWhile numAlpha = rest := by
  induction tok with
  | nil =>
    intro rest _ h2
    cases rest with
    | nil => exact ⟨rfl, rfl⟩
    | cons c cs =>
      simp only [headSafe, Bool.not_eq_true'] at h2
      simp [List.takeWhile_cons, List.dropWhile_cons, h2]
  | cons c cs ih =>
    intro rest h1 h2
    simp only [List.all_cons, Bool.and_eq_true] at h1
    have h := ih rest h1.2 h2
    simp [List.takeWhile_cons, List.dropWhile_cons, h1.1, h.1, h.2]

theorem headSafe_listChars (t : JsonList) (rest : List Char) :
    headSafe (listChars t ++ ']' :: rest) = true := by
  cases t <;> simp [listChars, headSafe, numAlpha]

theorem headSafe_fieldsChars (t : JsonFields) (rest : List Char) :
    headSafe (fieldsChars t ++ '\x7d' :: rest) = true := by
  cases t <;> simp [fieldsChars, headSafe, numAlpha]

theorem jsonChars_shape (v : Json) (hwf : jsonWF v = true) :
    ∃ c t, jsonChars v = c :: t ∧
      (c = 'n' ∨ c = 't' ∨ c = 'f' ∨ c = '"' ∨ c = '[' ∨ c = '\x7b' ∨
        (c.isDigit || c = '-') = true) := by
  cases v with
  | null => exact ⟨'n', ['u', 'l', 'l'], by simp [jsonChars], by tauto⟩
  | bool b =>
    cases b
    · exact ⟨'f', ['a', 'l', 's', 'e'], by simp [jsonChars], by tauto⟩
    · exact ⟨'t', ['r', 'u', 'e'], by simp [jsonChars], by tauto⟩
  | num tok =>
    simp only [jsonWF, Bool.and_eq_true] at hwf
    have hstart := hwf.2
    cases htok : tok.data with
    | nil => rw [htok] at hstart; exact absurd hstart (by simp [numStart])
    | cons c t =>
      rw [htok] at hstart
      exact ⟨c, t, by simp [jsonChars, htok], Or.inr (Or.inr (Or.inr (Or.inr (Or.inr
        (Or.inr (by simpa [numStart] using hstart))))))⟩
  | str s => exact ⟨'"', escapeString s.data ++ ['"'], by simp [jsonChars], by tauto⟩
  | arr l =>
    cases l with
    | nil => exact ⟨'[', [']'], by simp [jsonChars], by tauto⟩
    | cons h t =>
      exact ⟨'[', jsonChars h ++ (listChars t ++ [']']), by simp [jsonChars], by tauto⟩
  | obj fs =>
    cases fs with
    | fnil => exact ⟨'\x7b', ['\x7d'], by simp [jsonChars], by tauto⟩
    | fcons k v t =>
      exact ⟨'\x7b',
        '"' :: (escapeString k.data ++ '"' :: ':' :: (jsonChars v ++ (fieldsChars t ++ ['\x7d']))),
        by simp [jsonChars], by tauto⟩

theorem jsonChars_ne_nil (v : Json) (hwf : jsonWF v = true) :
    1 ≤ (jsonChars v).length := by
  obtain ⟨c, t, heq, -⟩ := jsonChars_shape v hwf
  rw [heq]
  simp

theorem parseVal_rbracket (fuel : Nat) (rest : List Char) :
    parseVal fuel (']' :: rest) = none := by
  cases fuel with
  | zero => simp [parseVal]
  | succ fuel => simp [parseVal]

/-- Key lemma: on the serialized text of a well-formed value, the parser
reconstructs exactly that value and leaves the continuation untouched,
provided the continuation does not begin with a numeral character and the
fuel exceeds the input length. -/
theorem parse_stringify_aux (fuel : Nat) :
    (∀ v rest, jsonWF v = true → headSafe rest = true →
        (jsonChars v).length + rest.length < fuel →
        parseVal fuel (jsonChars v ++ rest) = some (v, rest)) ∧
    (∀ l rest, jsonListWF l = true →
        (listChars l).length + rest.length + 1 < fuel →
        parseListTail fuel (listChars l ++ ']' :: rest) = some (l, rest)) ∧
    (∀ fs rest, jsonFieldsWF fs = true →
        (fieldsChars fs).length + rest.length + 1 < fuel →
        parseFieldsTail fuel (fieldsChars fs ++ '\x7d' :: rest) = some (fs, rest)) := by
  induction fuel with
  | zero =>
    exact ⟨fun v rest _ _ h => absurd h (Nat.not_lt_zero _),
      fun l rest _ h => absurd h (Nat.not_lt_zero _),
      fun fs rest _ h => absurd h (Nat.not_lt_zero _)⟩
  | succ fuel ih =>
    obtain ⟨ihv, ihl, ihf⟩ := ih
    refine ⟨?_, ?_, ?_⟩
    · intro v rest hwf hsafe hlen
      cases v with
      | null =>
        rw [show jsonChars .null ++ rest = 'n' :: 'u' :: 'l' :: 'l' :: rest from by
          simp only [jsonChars]; rfl]
        simp [parseVal]
      | bool b =>
        cases b
        · rw [show jsonChars (.bool false) ++ rest = 'f' :: ('a' :: 'l' :: 's' :: 'e' :: rest)
            from by simp only [jsonChars]; rfl]
          simp [parseVal]
        · rw [show jsonChars (.bool true) ++ rest = 't' :: 'r' :: 'u' :: 'e' :: rest
            from by simp only [jsonChars]; rfl]
          simp [parseVal]
      | num tok =>
        have hwf' := hwf
        simp only [jsonWF, Bool.and_eq_true] at hwf'
        obtain ⟨⟨hval, hall⟩, hstart⟩ := hwf'
        cases htok : tok.data with
        | nil => rw [htok] at hstart; exact absurd hstart (by simp [numStart])
        | cons c t =>
          rw [htok] at hstart hall hval
          have hcd : (c.isDigit || c = '-') = true := by simpa [numStart] using hstart
          have hne := numStart_ne c hcd
          have hn := hne 'n' (by simp)
          have ht := hne 't' (by simp)
          have hf := hne 'f' (by simp)
          have hq := hne '"' (by simp)
          have hbr := hne '[' (by simp)
          have hbrace := hne '\x7b' (by simp)
          have hmk : String.mk (c :: t) = tok := by rw [← htok]
          have htw := takeWhile_numAlpha_append (c :: t) rest hall hsafe
          simp only [List.cons_append] at htw
          rw [show jsonChars (.num tok) ++ rest = c :: (t ++ rest) from by
            simp [jsonChars, htok]]
          simp [parseVal, hn, ht, hf, hq, hbr, hbrace, hcd, htw.1, htw.2, hval, hmk]
      | str s =>
        rw [show jsonChars (.str s) ++ rest = '"' :: (escapeString s.data ++ '"' :: rest)
          from by simp [jsonChars]]
        simp [parseVal, parseStringBody_escape, show String.mk s.data = s from rfl]
      | arr l =>
        cases l with
        | nil =>
          rw [show jsonChars (.arr .nil) ++ rest = '[' :: ']' :: rest from by
            simp [jsonChars]]
          simp [parseVal, parseVal_rbracket]
        | cons h t =>
          have hwf' := hwf
          simp only [jsonWF, jsonListWF, Bool.and_eq_true] at hwf'
          obtain ⟨hwh, hwt⟩ := hwf'
          have hpos := jsonChars_ne_nil h hwh
          have hlen' := hlen
          simp only [jsonChars, List.length_cons, List.length_append,
            List.length_nil] at hlen'
          have hlen1 : (jsonChars h).length + (listChars t ++ ']' :: rest).length < fuel := by
            simp only [List.length_append, List.length_cons]
            omega
          have hlen2 : (listChars t).length + rest.length + 1 < fuel := by omega
          have hv := ihv h (listChars t ++ ']' :: rest) hwh (headSafe_listChars t rest) hlen1
          have hl := ihl t rest hwt hlen2
          rw [show jsonChars (.arr (.cons h t)) ++ rest
              = '[' :: (jsonChars h ++ (listChars t ++ ']' :: rest)) from by
            simp [jsonChars]]
          simp [parseVal, hv, hl]
      | obj fs =>
        cases fs with
        | fnil =>
          rw [show jsonChars (.obj .fnil) ++ rest = '\x7b' :: '\x7d' :: rest from by
            simp [jsonChars]]
          simp [parseVal]
        | fcons k vv t =>
          have hwf' := hwf
          simp only [jsonWF, jsonFieldsWF, Bool.and_eq_true] at hwf'
          obtain ⟨hwv, hwt⟩ := hwf'
          have hpos := jsonChars_ne_nil vv hwv
          have hlen' := hlen
          simp only [jsonChars, List.length_cons, List.length_append,
            List.length_nil] at hlen'
          have hlen1 : (jsonChars vv).length + (fieldsChars t ++ '\x7d' :: rest).length
              < fuel := by
            simp only [List.length_append, List.length_cons]
            omega
          have hlen2 : (fieldsChars t).length + rest.length + 1 < fuel := by omega
          have hv := ihv vv (fieldsChars t ++ '\x7d' :: rest) hwv
            (headSafe_fieldsChars t rest) hlen1
          have hfs := ihf t rest hwt hlen2
          have hkey := parseStringBody_escape k.data
            (':' :: (jsonChars vv ++ (fieldsChars t ++ '\x7d' :: rest)))
          rw [show jsonChars (.obj (.fcons k vv t)) ++ rest
              = '\x7b' :: '"' :: (escapeString k.data ++
                '"' :: ':' :: (jsonChars vv ++ (fieldsChars t ++ '\x7d' :: rest))) from by
            simp [jsonChars]]
          simp [parseVal, hkey, hv, hfs, show String.mk k.data = k from rfl]
    · intro l rest hwf hlen
      cases l with
      | nil =>
        rw [show listChars .nil ++ ']' :: rest = ']' :: rest from by simp [listChars]]
        simp [parseListTail]
      | cons h t =>
        have hwf' := hwf
        simp only [jsonListWF, Bool.and_eq_true] at hwf'
        obtain ⟨hwh, hwt⟩ := hwf'
        have hpos := jsonChars_ne_nil h hwh
        have hlen' := hlen
        simp only [listChars, List.length_cons, List.length_append] at hlen'
        have hlen1 : (jsonChars h).length + (listChars t ++ ']' :: rest).length < fuel := by
          simp only [List.length_append, List.length_cons]
          omega
        have hlen2 : (listChars t).length + rest.length + 1 < fuel := by omega
        have hv := ihv h (listChars t ++ ']' :: rest) hwh (headSafe_listChars t rest) hlen1
        have hl := ihl t rest hwt hlen2
        rw [show listChars (.cons h t) ++ ']' :: rest
            = ',' :: (jsonChars h ++ (listChars t ++ ']' :: rest)) from by
          simp [listChars]]
        simp [parseListTail, hv, hl]
    · intro fs rest hwf hlen
      cases fs with
      | fnil =>
        rw [show fieldsChars .fnil ++ '\x7d' :: rest = '\x7d' :: rest from by
          simp [fieldsChars]]
        simp [parseFieldsTail]
      | fcons k vv t =>
        have hwf' := hwf
        simp only [jsonFieldsWF, Bool.and_eq_true] at hwf'
        obtain ⟨hwv, hwt⟩ := hwf'
        have hpos := jsonChars_ne_nil vv hwv
        have hlen' := hlen
        simp only [fieldsChars, List.length_cons, List.length_append] at hlen'
        have hlen1 : (jsonChars vv).length + (fieldsChars t ++ '\x7d' :: rest).length
            < fuel := by
          simp only [List.length_append, List.length_cons]
          omega
        have hlen2 : (fieldsChars t).length + rest.length + 1 < fuel := by omega
        have hv := ihv vv (fieldsChars t ++ '\x7d' :: rest) hwv
          (headSafe_fieldsChars t rest) hlen1
        have hfs := ihf t rest hwt hlen2
        have hkey := parseStringBody_escape k.data
          (':' :: (jsonChars vv ++ (fieldsChars t ++ '\x7d' :: rest)))
        rw [show fieldsChars (.fcons k vv t) ++ '\x7d' :: rest
            = ',' :: '"' :: (escapeString k.data ++
              '"' :: ':' :: (jsonChars vv ++ (fieldsChars t ++ '\x7d' :: rest))) from by
          simp [fieldsChars]]
        simp [parseFieldsTail, hkey, hv, hfs, show String.mk k.data = k from rfl]

/-- Round trip: parsing the serialization of a well-formed JSON value
recovers exactly that value. -/
theorem parse_stringify (v : Json) (hwf : jsonWF v = true) :
    Json.parse (Json.stringify v) = some v := by
  have h := (parse_stringify_aux ((jsonChars v).length + 1)).1 v [] hwf rfl (by simp)
  simp only [List.append_nil] at h
  unfold Json.parse Json.stringify
  simp only [show (String.mk (jsonChars v)).data = jsonChars v from rfl, h]

theorem hitBy_not_mem {α : Type} [DecidableEq α] (outcomes : Nat → Bool)
    (l : List α) (x : α) (hx : x ∉ l) : ∀ i, hitBy outcomes i l x = false := by
  induction l with
  | nil => intro i; simp [hitBy]
  | cons r rest ih =>
    intro i
    simp only [List.mem_cons, not_or] at hx
    simp [hitBy, hx.1, ih hx.2]

theorem syncRun_pendingReceipts {α : Type} [DecidableEq α] (outcomes : Nat → Bool)
    (l : List α) : ∀ (i : Nat) (s : OfflineState α),
    (syncRun outcomes i l s).pendingReceipts
      = s.pendingReceipts.filter (fun x => !hitBy outcomes i l x) := by
  induction l with
  | nil => intro i s; simp [syncRun, hitBy]
  | cons r rest ih =>
    intro i s
    rw [syncRun, ih]
    by_cases hok : outcomes i = true
    · simp only [syncStep, hok, if_pos]
      rw [List.filter_filter]
      apply List.filter_congr
      intro x _
      simp [hitBy, hok, Bool.not_or, Bool.and_comm]
    · simp only [syncStep, hok, if_neg, Bool.false_eq_true, not_false_eq_true]
      apply List.filter_congr
      intro x _
      simp [hitBy, hok]

theorem syncRun_store_inv {α : Type} [DecidableEq α] (outcomes : Nat → Bool)
    (l : List α) : ∀ (i : Nat) (s : OfflineState α),
    s.storedQueue = s.pendingReceipts →
    (syncRun outcomes i l s).storedQueue = (syncRun outcomes i l s).pendingReceipts := by
  induction l with
  | nil => intro i s h; simpa [syncRun] using h
  | cons r rest ih =>
    intro i s h
    rw [syncRun]
    apply ih
    by_cases hok : outcomes i = true <;> simp [syncStep, hok, h]

theorem filter_not_hitBy {α : Type} [DecidableEq α] (outcomes : Nat → Bool)
    (l : List α) : ∀ i, l.Nodup →
    l.filter (fun x => !hitBy outcomes i l x) = failedOnly outcomes i l := by
  induction l with
  | nil => intro i _; simp [failedOnly]
  | cons r rest ih =>
    intro i hnd
    rw [List.nodup_cons] at hnd
    have hhead : (!hitBy outcomes i (r :: rest) r) = !outcomes i := by
      simp [hitBy, hitBy_not_mem outcomes rest r hnd.1]
    have htail : rest.filter (fun x => !hitBy outcomes i (r :: rest) x)
        = rest.filter (fun x => !hitBy outcomes (i + 1) rest x) := by
      apply List.filter_congr
      intro x hx
      have hxr : x ≠ r := fun he => hnd.1 (he ▸ hx)
      simp [hitBy, hxr]
    rw [List.filter_cons, hhead, htail, ih (i + 1) hnd.2, failedOnly]
    by_cases hok : outcomes i = true <;> simp [hok]

theorem validateForm_eq (rows : List FormItemRow) :
    validateForm rows
      = (rows.all (fun r => (rowCheck r).isSome), rows.filterMap rowCheck) := by
  unfold validateForm
  suffices h : ∀ (rs : List FormItemRow) (b : Bool) (is : List ValidatedItem),
      rs.foldl
        (fun acc row =>
          let name := row.itemName.trim
          match parseFloatQ row.itemQuantity, parseFloatQ row.itemPrice with
          | some q, some p =>
            if name = "" ∨ q ≤ 0 ∨ p < 0 then (false, acc.2)
            else (acc.1, acc.2 ++ [⟨name, q, p⟩])
          | _, _ => (false, acc.2))
        (b, is)
      = (b && rs.all (fun r => (rowCheck r).isSome), is ++ rs.filterMap rowCheck) by
    simpa using h rows true []
  intro rs
  induction rs with
  | nil => intro b is; simp
  | cons r rest ih =>
    intro b is
    simp only [List.foldl_cons, List.all_cons, List.filterMap_cons]
    cases hq : parseFloatQ r.itemQuantity with
    | none => simp [rowCheck, hq, ih]
    | some q =>
      cases hp : parseFloatQ r.itemPrice with
      | none => simp [rowCheck, hq, hp, ih]
      | some p =>
        by_cases hcond : r.itemName.trim = "" ∨ q ≤ 0 ∨ p < 0
        · simp [rowCheck, hq, hp, hcond, ih]
        · simp [rowCheck, hq, hp, hcond, ih, Bool.and_assoc]

theorem rowCheck_isSome_iff (row : FormItemRow) :
    (rowCheck row).isSome = true ↔ specRowOk row := by
  unfold rowCheck specRowOk
  cases hq : parseFloatQ row.itemQuantity with
  | none => simp [hq]
  | some q =>
    cases hp : parseFloatQ row.itemPrice with
    | none => simp [hq, hp]
    | some p =>
      show (if row.itemName.trim = "" ∨ q ≤ 0 ∨ p < 0 then (none : Option ValidatedItem)
          else some ⟨row.itemName.trim, q, p⟩).isSome = true ↔
        (row.itemName.trim ≠ "" ∧ (∃ q', some q = some q' ∧ 0 < q') ∧
          (∃ p', some p = some p' ∧ 0 ≤ p'))
      by_cases hc : row.itemName.trim = "" ∨ q ≤ 0 ∨ p < 0
      · rw [if_pos hc]
        simp only [Option.isSome_none, Bool.false_eq_true, false_iff]
        intro ⟨hn, ⟨q', hq', h0q⟩, ⟨p', hp', h0p⟩⟩
        cases hq'
        cases hp'
        rcases hc with hc | hc | hc
        · exact hn hc
        · exact absurd h0q (not_lt.mpr hc)
        · exact absurd h0p (not_le.mpr hc)
      · rw [if_neg hc]
        push_neg at hc
        simp only [Option.isSome_some, true_iff]
        exact ⟨hc.1, ⟨q, rfl, hc.2.1⟩, ⟨p, rfl, hc.2.2⟩⟩

theorem generateReceipt_formAfter (form : FormState) (net : FetchResult) :
    (generateReceipt form net).formAfter = form := by
  unfold generateReceipt
  by_cases hg : ¬ (validateForm form.rows).1 ∨ (validateForm form.rows).2.length = 0
  · rw [if_pos hg]
  · rw [if_neg hg]
    cases net with
    | reject m => rfl
    | response ok e => cases ok <;> rfl

theorem generateReceipt_sent_iff (form : FormState) (net : FetchResult) :
    (generateReceipt form net).requestSent = true ↔
      ((validateForm form.rows).1 = true ∧ (validateForm form.rows).2 ≠ []) := by
  unfold generateReceipt
  by_cases hg : ¬ (validateForm form.rows).1 ∨ (validateForm form.rows).2.length = 0
  · rw [if_pos hg]
    simp only [Bool.false_eq_true, false_iff, not_and, ne_eq, Decidable.not_not]
    intro h1
    rcases hg with hg | hg
    · exact absurd h1 hg
    · exact List.length_eq_zero.mp hg
  · rw [if_neg hg]
    push_neg at hg
    have h2 : (validateForm form.rows).2 ≠ [] := by
      intro he
      exact hg.2 (by rw [he]; rfl)
    cases net with
    | reject m => simpa using ⟨hg.1, h2⟩
    | response ok e => cases ok <;> simpa using ⟨hg.1, h2⟩

theorem generateReceipt_payload_eq (form : FormState) (net : FetchResult)
    (d : ReceiptPayload) (h : (generateReceipt form net).payload = some d) :
    d = { customer_name :=
            if form.customerName = "" then "Walk-in Customer" else form.customerName
          customer_pin := form.customerPIN
          payment_method := form.paymentMethod
          items := (validateForm form.rows).2 } := by
  unfold generateReceipt at h
  by_cases hg : ¬ (validateForm form.rows).1 ∨ (validateForm form.rows).2.length = 0
  · rw [if_pos hg] at h
    exact absurd h (by simp)
  · rw [if_neg hg] at h
    cases net with
    | reject m =>
      simp only [Option.some.injEq] at h
      exact h.symm
    | response ok e =>
      cases ok
      · injection h with h2
        exact h2.symm
      · injection h with h2
        exact h2.symm

/-! ## The claims -/

/-- C1, counterexample to the claim as stated: `"not json"` is not valid
JSON (`Json.parse` rejects it), and loading it does not produce the empty
queue — the load expression throws (modelled by `none`). -/
theorem C1_counterexample :
    Json.parse "not json" = none ∧
    loadPendingReceipts (some "not json") = none ∧
    loadPendingReceipts (some "not json") ≠ some (Json.arr .nil) := by
  have h : loadPendingReceipts (some "not json") = none := rfl
  refine ⟨rfl, h, ?_⟩
  rw [h]
  intro hc
  exact Option.noConfusion hc

/-- C1, amended: loading with the key absent — or holding the empty
string, which is equally falsy — yields the empty queue, but a corrupt
stored value, one `JSON.parse` rejects, makes the load expression throw
(`none`), failing the `OfflineManager` constructor, rather than yielding
an empty queue. -/
theorem C1_load_missing_empty_corrupt_throws :
    loadPendingReceipts none = some (Json.arr .nil) ∧
    loadPendingReceipts (some "") = some (Json.arr .nil) ∧
    (∀ s : String, s ≠ "" → Json.parse s = none →
      loadPendingReceipts (some s) = none) := by
  refine ⟨rfl, rfl, ?_⟩
  intro s hne hparse
  simp only [loadPendingReceipts, if_neg hne]
  exact hparse

/-- Witness for `C1_load_missing_empty_corrupt_throws` at the corrupt
stored value `"not json"`. -/
theorem C1_load_missing_empty_corrupt_throws_witness :
    loadPendingReceipts (some "not json") = none :=
  C1_load_missing_empty_corrupt_throws.2.2 "not json" (by decide) rfl

/-- C2: one drain pass leaves — in memory and persisted — exactly the
entries whose submission attempts failed, in their original relative
order; in particular an all-successful pass leaves the empty queue.
Hypotheses: the queue's entries are pairwise distinct (object references
always are, see the file header) and the persisted queue agreed with the
in-memory one when the drain started (the constructor, the enqueue and
every successful sync step all maintain this). -/
theorem C2_drain_keeps_failed_entries {α : Type} [DecidableEq α]
    (outcomes : Nat → Bool) (s : OfflineState α)
    (hnd : s.pendingReceipts.Nodup)
    (hst : s.storedQueue = s.pendingReceipts) :
    (syncPendingReceipts outcomes s).pendingReceipts
        = failedOnly outcomes 0 s.pendingReceipts ∧
    (syncPendingReceipts outcomes s).storedQueue
        = failedOnly outcomes 0 s.pendingReceipts := by
  have hp : (syncPendingReceipts outcomes s).pendingReceipts
      = failedOnly outcomes 0 s.pendingReceipts := by
    unfold syncPendingReceipts
    rw [syncRun_pendingReceipts, filter_not_hitBy outcomes s.pendingReceipts 0 hnd]
  refine ⟨hp, ?_⟩
  unfold syncPendingReceipts at hp ⊢
  rw [syncRun_store_inv outcomes s.pendingReceipts 0 s hst, hp]

/-- Witness for `C2_drain_keeps_failed_entries`, the `[A, B, C]` scenario
(as `[0, 1, 2]`): submitting `A` and `C` succeeds, `B` fails, and the
post-drain queue in memory and in storage is `[B]`. -/
theorem C2_drain_keeps_failed_entries_witness :
    (syncPendingReceipts (fun i => decide (i ≠ 1))
        (⟨true, [0, 1, 2], [0, 1, 2], false, 0⟩ : OfflineState ℕ)).pendingReceipts
      = [1] ∧
    (syncPendingReceipts (fun i => decide (i ≠ 1))
        (⟨true, [0, 1, 2], [0, 1, 2], false, 0⟩ : OfflineState ℕ)).storedQueue
      = [1] := by
  have h := C2_drain_keeps_failed_entries (fun i => decide (i ≠ 1))
    (⟨true, [0, 1, 2], [0, 1, 2], false, 0⟩ : OfflineState ℕ) (by decide) rfl
  exact ⟨by rw [h.1]; decide, by rw [h.2]; decide⟩

/-- C3: the queue round-trips through storage — loading the saved string
recovers exactly the saved sequence, in order — and re-saving what was
loaded writes back the identical string, so `save(load())` leaves the
persisted value unchanged.  The hypothesis is serializability
(`jsonListWF`), true of everything `JSON.stringify` can produce and in
particular of every queue built by enqueue calls. -/
theorem C3_save_load_roundtrip (q : JsonList) (hwf : jsonListWF q = true) :
    loadPendingReceipts (some (savePendingReceipts q)) = some (Json.arr q) ∧
    (match loadPendingReceipts (some (savePendingReceipts q)) with
      | some (Json.arr q') => some (savePendingReceipts q')
      | _ => none) = some (savePendingReceipts q) := by
  have hwfa : jsonWF (Json.arr q) = true := by
    cases q <;> simpa [jsonWF] using hwf
  have hne : savePendingReceipts q ≠ "" := by
    intro h
    have hd := congrArg String.data h
    simp only [savePendingReceipts, Json.stringify] at hd
    have hlen := jsonChars_ne_nil (Json.arr q) hwfa
    rw [hd] at hlen
    simp at hlen
  have hload : loadPendingReceipts (some (savePendingReceipts q)) = some (Json.arr q) := by
    simp only [loadPendingReceipts, if_neg hne]
    exact parse_stringify (.arr q) hwfa
  exact ⟨hload, by rw [hload]⟩

/-- Witness for `C3_save_load_roundtrip` on a concrete one-receipt queue
with nested objects, an escaped quote in a string, and numerals. -/
theorem C3_save_load_roundtrip_witness :
    loadPendingReceipts (some (savePendingReceipts sampleQueue))
      = some (Json.arr sampleQueue) :=
  (C3_save_load_roundtrip sampleQueue rfl).1

/-- C4: a successful submission's entry — and only it — is removed from
the queue (under distinct entries, `erase` of exactly that entry) and the
updated queue is persisted in the same step, before the next entry is
attempted; and every step, successful or failed, preserves agreement
between the persisted and the in-memory queue, as does a whole run — so
at every step boundary the persisted queue equals the in-memory queue and
a crash between steps loses no recorded removal. -/
theorem C4_step_removes_and_persists {α : Type} [DecidableEq α] :
    (∀ (ok : Bool) (r : α) (s : OfflineState α),
      s.storedQueue = s.pendingReceipts →
      (syncStep ok r s).storedQueue = (syncStep ok r s).pendingReceipts) ∧
    (∀ (r : α) (s : OfflineState α), s.pendingReceipts.Nodup →
      (syncStep true r s).pendingReceipts = s.pendingReceipts.erase r ∧
      (syncStep true r s).storedQueue = s.pendingReceipts.erase r) ∧
    (∀ (outcomes : Nat → Bool) (i : Nat) (l : List α) (s : OfflineState α),
      s.storedQueue = s.pendingReceipts →
      (syncRun outcomes i l s).storedQueue
        = (syncRun outcomes i l s).pendingReceipts) := by
  refine ⟨?_, ?_, fun outcomes i l s h => syncRun_store_inv outcomes l i s h⟩
  · intro ok r s h
    cases ok <;> simp [syncStep, h]
  · intro r s hnd
    have he : s.pendingReceipts.erase r
        = s.pendingReceipts.filter (fun x => decide (x ≠ r)) := by
      rw [hnd.erase_eq_filter]
      apply List.filter_congr
      intro x _
      rw [Bool.eq_iff_iff]
      simp [bne_iff_ne]
    constructor <;> simp [syncStep, he]

/-- Witness for `C4_step_removes_and_persists`: a successful step on entry
`1` of queue `[0, 1, 2]` leaves `[0, 2]` both in memory and persisted. -/
theorem C4_step_removes_and_persists_witness :
    (syncStep true 1 (⟨true, [0, 1, 2], [0, 1, 2], false, 0⟩ : OfflineState ℕ)).pendingReceipts
      = [0, 2] ∧
    (syncStep true 1 (⟨true, [0, 1, 2], [0, 1, 2], false, 0⟩ : OfflineState ℕ)).storedQueue
      = [0, 2] := by
  have h := (C4_step_removes_and_persists (α := ℕ)).2.1 1
    (⟨true, [0, 1, 2], [0, 1, 2], false, 0⟩ : OfflineState ℕ) (by decide)
  exact ⟨by rw [h.1]; decide, by rw [h.2]; decide⟩

/-- C5: `storeReceiptOffline` leaves every existing entry in place and in
order (the new queue restricted to the old length is the old queue),
appends the receipt as the last entry, making the queue one longer,
persists the new queue at once, and shows the offline notification
unconditionally. -/
theorem C5_enqueue_appends {α : Type} (r : α) (s : OfflineState α) :
    (storeReceiptOffline r s).pendingReceipts = s.pendingReceipts ++ [r] ∧
    (storeReceiptOffline r s).storedQueue = s.pendingReceipts ++ [r] ∧
    (storeReceiptOffline r s).pendingReceipts.take s.pendingReceipts.length
      = s.pendingReceipts ∧
    (storeReceiptOffline r s).pendingReceipts.getLast? = some r ∧
    (storeReceiptOffline r s).pendingReceipts.length = s.pendingReceipts.length + 1 ∧
    (storeReceiptOffline r s).notifications = s.notifications + 1 := by
  refine ⟨rfl, rfl, ?_, ?_, ?_, rfl⟩
  · simp [storeReceiptOffline, List.take_left]
  · simp [storeReceiptOffline]
  · simp [storeReceiptOffline]

/-- Witness for `C5_enqueue_appends`: enqueueing into a two-entry queue
yields the three-entry queue with the new receipt last. -/
theorem C5_enqueue_appends_witness :
    (storeReceiptOffline 9 (⟨false, [4, 7], [4, 7], true, 1⟩ : OfflineState ℕ)).pendingReceipts
      = [4, 7, 9] ∧
    (storeReceiptOffline 9 (⟨false, [4, 7], [4, 7], true, 1⟩ : OfflineState ℕ)).pendingReceipts.length
      = 3 ∧
    (storeReceiptOffline 9 (⟨false, [4, 7], [4, 7], true, 1⟩ : OfflineState ℕ)).pendingReceipts.getLast?
      = some 9 := by
  have h := C5_enqueue_appends 9 (⟨false, [4, 7], [4, 7], true, 1⟩ : OfflineState ℕ)
  exact ⟨by simp [h.1], by simp [h.2.2.2.2.1], by simp [h.2.2.2.1]⟩

/-- C6: the code contradicts the claim.  When the submission `fetch`
rejects for connectivity, `generateReceipt`'s `catch` only alerts: for
every form and rejection message nothing is handed to
`storeReceiptOffline` (which no code in the repository calls), shown also
at a concrete failing input — a valid one-row form whose request was sent
and then rejected, after which the queue gains nothing and the receipt is
discarded. -/
theorem C6_network_failure_discards_receipt :
    (∀ (form : FormState) (msg : String),
      (generateReceipt form (FetchResult.reject msg)).enqueued = [] ∧
      (generateReceipt form (FetchResult.reject msg)).alerted = true) ∧
    (generateReceipt ⟨"Bob", "P05", "Cash", [⟨"Apple", "2", "10"⟩]⟩
        (FetchResult.reject "Failed to fetch")).requestSent = true ∧
    (generateReceipt ⟨"Bob", "P05", "Cash", [⟨"Apple", "2", "10"⟩]⟩
        (FetchResult.reject "Failed to fetch")).enqueued = [] := by
  refine ⟨?_, by with_unfolding_all rfl, by with_unfolding_all rfl⟩
  intro form msg
  unfold generateReceipt
  by_cases hg : ¬ (validateForm form.rows).1 ∨ (validateForm form.rows).2.length = 0
  · rw [if_pos hg]; exact ⟨rfl, rfl⟩
  · rw [if_neg hg]; exact ⟨rfl, rfl⟩

/-- C7: dispatching one `online` event while offline invokes the drain
exactly once (the handler body calls `syncPendingReceipts()` exactly
once), and with an empty queue that drain pass attempts no submissions
and completes with the queue still empty and storage untouched. -/
theorem C7_online_transition_drains_once {α : Type} [DecidableEq α]
    (outcomes : Nat → Bool) (s : OfflineState α) (_hoff : s.isOnline = false) :
    (dispatchEvent outcomes ConnectivityEvent.online s).2.length = 1 ∧
    (s.pendingReceipts = [] →
      (dispatchEvent outcomes ConnectivityEvent.online s).2 = [[]] ∧
      (dispatchEvent outcomes ConnectivityEvent.online s).1.pendingReceipts = [] ∧
      (dispatchEvent outcomes ConnectivityEvent.online s).1.storedQueue
        = s.storedQueue) := by
  refine ⟨rfl, ?_⟩
  intro hq
  refine ⟨?_, ?_, ?_⟩ <;>
    simp [dispatchEvent, handleOnline, syncPendingReceipts, hq, syncRun]

/-- Witness for `C7_online_transition_drains_once`: an offline page with
an empty queue receives the `online` event; the drain runs once over no
entries. -/
theorem C7_online_transition_drains_once_witness :
    (dispatchEvent (fun _ => true) ConnectivityEvent.online
        (⟨false, [], [], true, 0⟩ : OfflineState ℕ)).2 = [[]] ∧
    (dispatchEvent (fun _ => true) ConnectivityEvent.online
        (⟨false, [], [], true, 0⟩ : OfflineState ℕ)).1.pendingReceipts = [] := by
  have h := C7_online_transition_drains_once (fun _ => true)
    (⟨false, [], [], true, 0⟩ : OfflineState ℕ) rfl
  exact ⟨(h.2 rfl).1, (h.2 rfl).2.1⟩

/-- C8: `generateReceipt` sends the request exactly when there is at
least one row and every row has a non-empty trimmed name, a parsed
quantity strictly above zero and a parsed price at least zero; and in
every case — in particular when nothing is sent — the form values are
left unchanged. -/
theorem C8_validation_gates_request (form : FormState) (net : FetchResult) :
    ((generateReceipt form net).requestSent = true ↔
      (form.rows ≠ [] ∧ ∀ row ∈ form.rows, specRowOk row)) ∧
    (generateReceipt form net).formAfter = form := by
  refine ⟨?_, generateReceipt_formAfter form net⟩
  rw [generateReceipt_sent_iff form net, validateForm_eq form.rows]
  simp only [List.all_eq_true, ne_eq]
  constructor
  · intro ⟨hall, hne⟩
    refine ⟨?_, fun row hrow => (rowCheck_isSome_iff row).mp (hall row hrow)⟩
    intro he
    exact hne (by rw [he]; rfl)
  · intro ⟨hrows, hok⟩
    refine ⟨fun row hrow => (rowCheck_isSome_iff row).mpr (hok row hrow), ?_⟩
    cases hr : form.rows with
    | nil => exact absurd hr hrows
    | cons r rest =>
      have hsome : (rowCheck r).isSome = true :=
        (rowCheck_isSome_iff r).mpr (hok r (by rw [hr]; exact List.mem_cons_self r rest))
      rw [List.filterMap_cons]
      cases hrc : rowCheck r with
      | none => rw [hrc] at hsome; exact absurd hsome (by simp)
      | some i => simp

/-- Witness for `C8_validation_gates_request`: a one-row form with name
`"Apple"`, quantity `"2"`, price `"10"` passes the gate, so the request
is sent. -/
theorem C8_validation_gates_request_witness :
    (generateReceipt ⟨"Bob", "P05", "Cash", [⟨"Apple", "2", "10"⟩]⟩
        (FetchResult.response true "")).requestSent = true := by
  refine ((C8_validation_gates_request ⟨"Bob", "P05", "Cash", [⟨"Apple", "2", "10"⟩]⟩
      (FetchResult.response true "")).1).mpr ⟨by decide, ?_⟩
  intro row hrow
  rw [List.mem_singleton] at hrow
  subst hrow
  refine ⟨by with_unfolding_all decide, ⟨2, by with_unfolding_all rfl, by norm_num⟩,
    ⟨10, by with_unfolding_all rfl, by norm_num⟩⟩

/-- C9, counterexample to the claim as stated: item names are trimmed
before entering the payload, so with the item-name field `" Apple "` the
submitted item name is `"Apple"`, not the verbatim field value. -/
theorem C9_counterexample :
    ((generateReceipt ⟨"Bob", "P05", "Cash", [⟨" Apple ", "2", "10"⟩]⟩
        (FetchResult.response true "")).payload).map
          (fun d => d.items.map (fun i => i.name))
      = some ["Apple"] ∧
    ([⟨" Apple ", "2", "10"⟩] : List FormItemRow).map (fun r => r.itemName)
      = [" Apple "] ∧
    ("Apple" : String) ≠ " Apple " := by
  exact ⟨by with_unfolding_all rfl, rfl, by decide⟩

/-- C9, amended: whenever `generateReceipt` builds a payload, its
`customer_name` is `'Walk-in Customer'` exactly when the field is empty
and the field's value otherwise; `customer_pin` and `payment_method` are
verbatim field values; and `items` holds the validated items — names
trimmed, quantity and price the parsed numbers — rather than the raw row
strings. -/
theorem C9_payload_from_fields (form : FormState) (net : FetchResult)
    (d : ReceiptPayload) (h : (generateReceipt form net).payload = some d) :
    d.customer_name
      = (if form.customerName = "" then "Walk-in Customer" else form.customerName) ∧
    d.customer_pin = form.customerPIN ∧
    d.payment_method = form.paymentMethod ∧
    d.items = (validateForm form.rows).2 := by
  rw [generateReceipt_payload_eq form net d h]
  exact ⟨rfl, rfl, rfl, rfl⟩

/-- Witness for `C9_payload_from_fields`: the empty customer-name field
becomes `'Walk-in Customer'`, PIN and payment method pass through, and
the one item is the validated `"Apple"` with parsed numbers. -/
theorem C9_payload_from_fields_witness :
    (⟨"Walk-in Customer", "P05", "Cash", [⟨"Apple", 2, 10⟩]⟩ : ReceiptPayload).customer_name
      = (if ("" : String) = "" then "Walk-in Customer" else "") ∧
    (⟨"Walk-in Customer", "P05", "Cash", [⟨"Apple", 2, 10⟩]⟩ : ReceiptPayload).customer_pin
      = "P05" ∧
    (⟨"Walk-in Customer", "P05", "Cash", [⟨"Apple", 2, 10⟩]⟩ : ReceiptPayload).payment_method
      = "Cash" ∧
    (⟨"Walk-in Customer", "P05", "Cash", [⟨"Apple", 2, 10⟩]⟩ : ReceiptPayload).items
      = (validateForm [⟨" Apple ", "2", "10"⟩]).2 :=
  C9_payload_from_fields ⟨"", "P05", "Cash", [⟨" Apple ", "2", "10"⟩]⟩
    (FetchResult.response true "")
    ⟨"Walk-in Customer", "P05", "Cash", [⟨"Apple", 2, 10⟩]⟩
    (by with_unfolding_all rfl)

/-- C10: `addLiveActivity` inserts the new item at the front and, when
the count exceeds 10, removes the last item, so a list of at most 10
items still has at most 10 after any call — the 10-item bound is an
invariant preserved by every call (and the new item is always first). -/
theorem C10_live_activity_bounded {α : Type} (item : α) (container : List α)
    (hb : container.length ≤ 10) :
    (addLiveActivity item container).length ≤ 10 ∧
    (addLiveActivity item container).head? = some item := by
  unfold addLiveActivity
  by_cases h : (item :: container).length > 10
  · rw [if_pos h]
    constructor
    · simp only [List.length_dropLast, List.length_cons]
      omega
    · cases container with
      | nil => simp at h
      | cons c rest => simp
  · rw [if_neg h]
    simp only [List.length_cons, gt_iff_lt, not_lt] at h
    exact ⟨by simpa using h, rfl⟩

/-- Witness for `C10_live_activity_bounded`: adding to a full 10-item
list keeps the length at 10 with the new item first. -/
theorem C10_live_activity_bounded_witness :
    (addLiveActivity 5 (List.replicate 10 0)).length ≤ 10 ∧
    (addLiveActivity 5 (List.replicate 10 0)).head? = some 5 :=
  C10_live_activity_bounded 5 (List.replicate 10 0) (by decide)

end ETR
